import Mathlib

/-!
Verification development for the request_recorder repository (Go).

The Go sources (header.go, main.go, server.go) are shallowly embedded below:
pure functions become Lean functions, byte streams become lists of characters
(with byte counts computed through their UTF-8 sizes; window boundaries are
assumed to fall on character boundaries, which is exact for ASCII inputs),
fallible operations return Except or Option, and a Go runtime panic is made
explicit as a distinguished result constructor.  Go standard-library helpers
used by the sources (encoding/json Valid and Compact, mime extension tables,
path/filepath helpers, strings helpers) are modelled by executable Lean
counterparts faithful to their documented behaviour on the inputs that occur
here; each model carries a doc comment saying what it covers.
-/

namespace RequestRecorder

/-! ## Characters and byte lengths -/

/-- Decimal digit test, as used by the closure passed to strings.IndexFunc in
maxFileNum: a rune r with r < '0' || r > '9' is a non-digit. -/
def isDigit09 (c : Char) : Bool := decide ('0' ≤ c) && decide (c ≤ '9')

/-- ASCII fragment of the printability test in saveBody
(unicode.IsLetter || unicode.IsDigit || unicode.IsSpace).  On ASCII
characters Lean's Char.isAlpha / Char.isDigit / Char.isWhitespace agree with
Go's Unicode tables; all concrete inputs below are ASCII. -/
def goPrintable (c : Char) : Bool := c.isAlpha || c.isDigit || c.isWhitespace

/-- Byte length of a character stream: the sum of the UTF-8 sizes of its
characters.  Go readers count bytes; this is the byte count of the stream. -/
def utf8Len (l : List Char) : Nat := (l.map Char.utf8Size).sum

/-- Reading at most n bytes from a stream (io.LimitReader / bounded buffer):
take characters while their UTF-8 size fits the remaining byte budget. -/
def takeUtf8Bytes : Nat → List Char → List Char
  | _, [] => []
  | budget, c :: rest =>
    if c.utf8Size ≤ budget then c :: takeUtf8Bytes (budget - c.utf8Size) rest
    else []

/-- The left-brace character, written by code point to keep braces out of
string and character literals. -/
def lbrace : Char := Char.ofNat 123

/-- The right-brace character. -/
def rbrace : Char := Char.ofNat 125

/-! ## Model of encoding/json: Valid and Compact

json.Valid checks that a byte slice is one syntactically valid JSON value
(RFC 8259 grammar, with JSON whitespace allowed around tokens).  It is
modelled by a recursive-descent scanner over the character stream; the fuel
argument bounds the recursion and is instantiated generously from the input
length, which suffices because every two nested calls consume at least one
character. -/

/-- JSON whitespace (space, tab, newline, carriage return). -/
def isJsonWs (c : Char) : Bool := c = ' ' || c = '\t' || c = '\n' || c = '\r'

/-- Drop leading JSON whitespace. -/
def dropWs (l : List Char) : List Char := l.dropWhile isJsonWs

/-- Hexadecimal digit test (for string escapes of the form backslash-u). -/
def isHexDigit (c : Char) : Bool :=
  isDigit09 c || (decide ('a' ≤ c) && decide (c ≤ 'f'))
    || (decide ('A' ≤ c) && decide (c ≤ 'F'))

/-- Scan the remainder of a JSON string literal (the opening quote has been
consumed); returns the input after the closing quote. -/
def scanStringBody : List Char → Option (List Char)
  | [] => none
  | c :: rest =>
    if c = '"' then some rest
    else if c = '\\' then
      match rest with
      | [] => none
      | e :: rest2 =>
        if e = 'u' then
          match rest2 with
          | a :: b :: c2 :: d :: rest3 =>
            if isHexDigit a && isHexDigit b && isHexDigit c2 && isHexDigit d then
              scanStringBody rest3
            else none
          | _ => none
        else if e = '"' || e = '\\' || e = '/' || e = 'b' || e = 'f'
            || e = 'n' || e = 'r' || e = 't' then
          scanStringBody rest2
        else none
    else if c.toNat < 32 then none
    else scanStringBody rest

/-- Drop a (possibly empty) run of decimal digits. -/
def dropDigits (l : List Char) : List Char := l.dropWhile isDigit09

/-- Scan the exponent part of a JSON number (optional). -/
def scanExp (l : List Char) : Option (List Char) :=
  match l with
  | [] => some []
  | c :: r =>
    if c = 'e' || c = 'E' then
      let r2 := match r with
        | s :: r2 => if s = '+' || s = '-' then r2 else r
        | [] => r
      match r2 with
      | d :: _ => if isDigit09 d then some (dropDigits r2) else none
      | [] => none
    else some l

/-- Scan the fraction part of a JSON number (optional), then the exponent. -/
def scanFrac (l : List Char) : Option (List Char) :=
  match l with
  | '.' :: r =>
    (match r with
     | d :: _ => if isDigit09 d then scanExp (dropDigits r) else none
     | [] => none)
  | _ => scanExp l

/-- Scan a JSON number. -/
def scanNumber (l : List Char) : Option (List Char) :=
  let l1 := match l with
    | c :: r => if c = '-' then r else l
    | [] => l
  match l1 with
  | [] => none
  | c :: r =>
    if c = '0' then scanFrac r
    else if isDigit09 c then scanFrac (dropDigits r)
    else none

mutual

/-- Scan one JSON value; returns the rest of the input on success. -/
def scanValue : Nat → List Char → Option (List Char)
  | 0, _ => none
  | Nat.succ fuel, l =>
    match dropWs l with
    | [] => none
    | c :: r =>
      if c = '"' then scanStringBody r
      else if c = lbrace then
        match dropWs r with
        | d :: r2 => if d = rbrace then some r2 else scanMembers fuel (d :: r2)
        | [] => none
      else if c = '[' then
        match dropWs r with
        | d :: r2 => if d = ']' then some r2 else scanElems fuel (d :: r2)
        | [] => none
      else if c = 't' then
        match r with
        | 'r' :: 'u' :: 'e' :: r2 => some r2
        | _ => none
      else if c = 'f' then
        match r with
        | 'a' :: 'l' :: 's' :: 'e' :: r2 => some r2
        | _ => none
      else if c = 'n' then
        match r with
        | 'u' :: 'l' :: 'l' :: r2 => some r2
        | _ => none
      else scanNumber (c :: r)

/-- Scan the members of a JSON object, positioned at a key. -/
def scanMembers : Nat → List Char → Option (List Char)
  | 0, _ => none
  | Nat.succ fuel, l =>
    match dropWs l with
    | '"' :: r =>
      (match scanStringBody r with
       | none => none
       | some r2 =>
         match dropWs r2 with
         | ':' :: r3 =>
           (match scanValue fuel r3 with
            | none => none
            | some r4 =>
              match dropWs r4 with
              | ',' :: r5 => scanMembers fuel r5
              | d :: r5 => if d = rbrace then some r5 else none
              | [] => none)
         | _ => none)
    | _ => none

/-- Scan the elements of a JSON array, positioned at an element. -/
def scanElems : Nat → List Char → Option (List Char)
  | 0, _ => none
  | Nat.succ fuel, l =>
    match scanValue fuel l with
    | none => none
    | some r =>
      match dropWs r with
      | ',' :: r2 => scanElems fuel r2
      | ']' :: r2 => some r2
      | _ => none

end

/-- Model of json.Valid: the stream is one valid JSON value followed only by
JSON whitespace. -/
def jsonValid (l : List Char) : Bool :=
  match scanValue (2 * l.length + 2) l with
  | some rest => (dropWs rest).isEmpty
  | none => false

/-- Whitespace-stripping state for jsonCompact: outside a string, inside a
string, or immediately after a backslash inside a string. -/
inductive WsState | out | ins | esc
deriving DecidableEq

/-- Remove JSON whitespace outside string literals. -/
def stripWsGo : WsState → List Char → List Char
  | _, [] => []
  | .out, c :: r =>
    if isJsonWs c then stripWsGo .out r
    else if c = '"' then c :: stripWsGo .ins r
    else c :: stripWsGo .out r
  | .ins, c :: r =>
    if c = '\\' then c :: stripWsGo .esc r
    else if c = '"' then c :: stripWsGo .out r
    else c :: stripWsGo .ins r
  | .esc, c :: r => c :: stripWsGo .ins r

/-- Model of json.Compact: fails exactly on invalid JSON, otherwise removes
the insignificant whitespace (string contents are preserved verbatim). -/
def jsonCompact (l : List Char) : Option (List Char) :=
  if jsonValid l then some (stripWsGo .out l) else none

/-! ## String helpers (models of the strings and path/filepath packages) -/

/-- Prefix test on character lists. -/
def isPrefixList : List Char → List Char → Bool
  | [], _ => true
  | _ :: _, [] => false
  | a :: as, b :: bs => a = b && isPrefixList as bs

/-- Contiguous-infix test on character lists: pat occurs inside the second
list. -/
def hasInfix (pat : List Char) : List Char → Bool
  | [] => isPrefixList pat []
  | c :: t => isPrefixList pat (c :: t) || hasInfix pat t

/-- Substring containment, strings.Contains(s, pat). -/
def containsSub (s pat : String) : Bool := hasInfix pat.data s.data

/-- strings.TrimSuffix: remove the suffix when present, else return the
string unchanged. -/
def trimSuffixStr (s suffix : String) : String :=
  if isPrefixList suffix.data.reverse s.data.reverse then
    String.mk (s.data.take (s.data.length - suffix.data.length))
  else s

/-- Helper for pathExtension: walk the reversed character list, collecting
until the last dot of the final path element; none when the final element
has no dot. -/
def findExtRev : List Char → List Char → Option (List Char)
  | [], _ => none
  | c :: rest, acc =>
    if c = '/' then none
    else if c = '.' then some ('.' :: acc)
    else findExtRev rest (c :: acc)

/-- Model of filepath.Ext: the suffix of the final path element beginning at
its last dot, or the empty string when there is none. -/
def pathExtension (s : String) : String :=
  match findExtRev s.data.reverse [] with
  | none => ""
  | some e => String.mk e

/-- Model of filepath.Base: the last element of the path after removing
trailing slashes; "." for the empty path, "/" when the path is only
slashes. -/
def filepathBase (s : String) : String :=
  if s = "" then "."
  else
    let rev := s.data.reverse.dropWhile (fun c => c = '/')
    if rev = [] then "/"
    else String.mk ((rev.takeWhile (fun c => c ≠ '/')).reverse)

/-- Model of filepath.Dir for clean relative paths: everything before the
final path element, or "." when there is no slash. -/
def filepathDir (s : String) : String :=
  let rest := (s.data.reverse.dropWhile (fun c => c ≠ '/')).dropWhile
    (fun c => c = '/')
  if rest = [] then "." else String.mk rest.reverse

/-- Model of filepath.Join for already-clean inputs (no dot segments and no
duplicate slashes), where Go's Clean is the identity: join the non-empty
elements with a slash. -/
def filepathJoin (a b : String) : String :=
  if a = "" then b else if b = "" then a else a ++ "/" ++ b

/-! ## Model of the mime package extension tables

mime.ExtensionsByType consults the process-wide extension table
(built-in entries plus platform files); an unparsable media type (such as
the empty string) or an unregistered one yields an empty extension list.
mime.TypeByExtension is the inverse lookup, returning the empty string for
unknown extensions.  A fixed subset of Go's built-in table is modelled;
what matters for the theorems is membership or absence, and absence is
exact for the empty media type and for extensions such as .dat and .bin. -/

def mimeExtTable : List (String × List String) :=
  [("application/json", [".json"]),
   ("application/pdf", [".pdf"]),
   ("image/png", [".png"]),
   ("text/html", [".htm", ".html"])]

/-- Model of mime.ExtensionsByType (see mimeExtTable). -/
def extensionsByType (ct : String) : List String :=
  match mimeExtTable.lookup ct with
  | some exts => exts
  | none => []

def mimeTypeTable : List (String × String) :=
  [(".json", "application/json"),
   (".pdf", "application/pdf"),
   (".png", "image/png"),
   (".htm", "text/html"),
   (".html", "text/html")]

/-- Model of mime.TypeByExtension (see mimeExtTable). -/
def typeByExtension (e : String) : String :=
  match mimeTypeTable.lookup e with
  | some t => t
  | none => ""

/-! ## HeaderCodec (header.go)

The Go Header type is map[string]interface{} holding either a string or a
[]string; it is modelled as an association list of a tagged union, keeping
wire order (Go map iteration order is unspecified, so an order-preserving
model only strengthens the round-trip statement per key). -/

/-- Folded header value: a scalar string, a string sequence, or any other
shape (which the producers never emit and the consumers drop). -/
inductive HVal
  | str (s : String)
  | strs (l : List String)
  | other
deriving DecidableEq

/-- The folded header map. -/
def HeaderMap := List (String × HVal)

/-- Header.FromHttpHeader: drop empty value sequences, collapse singletons
to a scalar, keep longer sequences. -/
def fromHttpHeader : List (String × List String) → HeaderMap
  | [] => []
  | (k, vs) :: rest =>
    match vs with
    | [] => fromHttpHeader rest
    | [v] => (k, HVal.str v) :: fromHttpHeader rest
    | vs2 => (k, HVal.strs vs2) :: fromHttpHeader rest

/-- Header.ToHttpHeader: a scalar becomes a one-element sequence, a sequence
passes through, any other shape is dropped. -/
def toHttpHeader : HeaderMap → List (String × List String)
  | [] => []
  | (k, HVal.str s) :: rest => (k, [s]) :: toHttpHeader rest
  | (k, HVal.strs l) :: rest => (k, l) :: toHttpHeader rest
  | (_, HVal.other) :: rest => toHttpHeader rest

/-! ## BodyClassifier (server.go: saveBody, readJson, content-type tests) -/

/-- isContentMultiPart: the content type contains the multipart form
marker. -/
def isContentMultiPart (ct : String) : Bool :=
  containsSub ct "multipart/form-data"

/-- isContentJson: the content type contains "/json". -/
def isContentJson (ct : String) : Bool := containsSub ct "/json"

/-- readJson: read at most 1 MiB (io.LimitReader + io.ReadAll) and require
the collected bytes to be valid JSON; the raw bytes are returned
unchanged. -/
def readJson (body : List Char) : Except Unit (List Char) :=
  let data := takeUtf8Bytes (1 <<< 20) body
  if jsonValid data then Except.ok data else Except.error ()

/-- Outcome of saveBody: either a normal return carrying the inline body
text and the spool filename (at most one of them non-empty), or the Go
runtime panic raised by indexing an empty extension slice. -/
inductive SaveOutcome
  | ok (body : String) (bodyFile : String)
  | crashed
deriving DecidableEq

/-- The spool branch of saveBody (label saveFile): look up the extensions
for the declared content type; the guard in the source is
len(ext) >= 0, which always holds, so ext[0] is read even when the slice is
empty, which panics; otherwise the hint filename has its extension replaced
by ext[0] and the body is streamed to that file. -/
def spoolTo (ct hint : String) : SaveOutcome :=
  let ext := extensionsByType ct
  if 0 ≤ ext.length then
    match ext with
    | [] => SaveOutcome.crashed
    | e :: _ =>
      SaveOutcome.ok "" (trimSuffixStr hint (pathExtension hint) ++ e)
  else SaveOutcome.ok "" hint

/-- saveBody: peek up to 64 KiB with io.ReadFull.  A zero-byte stream (EOF)
yields empty inline body; a stream that ends strictly inside the window
(ErrUnexpectedEOF) is kept inline when every decoded rune is printable and
spooled otherwise; a stream that fills the window (ReadFull returns nil,
even when the stream ends exactly there) is spooled. -/
def saveBody (body : List Char) (ct hint : String) : SaveOutcome :=
  let n := utf8Len body
  if n = 0 then SaveOutcome.ok "" ""
  else if n < 65536 then
    if body.all goPrintable then SaveOutcome.ok (String.mk body) ""
    else spoolTo ct hint
  else spoolTo ct hint

/-! ## MultipartCodec, capture direction (server.go: readMultiPart) -/

/-- One incoming multipart part: its declared content type, the filename
from its Content-Disposition (empty when absent), and its body stream.  The
remaining part headers do not influence capture classification and are not
modelled. -/
structure PartIn where
  contentType : String
  fileName : String
  body : List Char
deriving DecidableEq

/-- One stored multipart part of the record (the MultiPart JSON object,
body fields only). -/
structure MultiPartRec where
  content : String
  contentFile : String
  contentJson : Option (List Char)
deriving DecidableEq

/-- Outcome of decomposing the parts: success with the stored part list, a
returned error (invalid JSON part), or a Go runtime panic propagated from
saveBody. -/
inductive MpResult
  | ok (parts : List MultiPartRec)
  | err
  | crashed
deriving DecidableEq

/-- Prepend a stored part to a multipart outcome. -/
def consMp (p : MultiPartRec) : MpResult → MpResult
  | MpResult.ok l => MpResult.ok (p :: l)
  | MpResult.err => MpResult.err
  | MpResult.crashed => MpResult.crashed

/-- The part loop of readMultiPart: JSON parts go through readJson into
content_json; all other parts go through saveBody with a hint name derived
from the record base (recordBase-filename, or recordBase-multipart_n.dat
with n counting only the filename-less parts). -/
def readPartsAux (base : String) : List PartIn → Nat → MpResult
  | [], _ => MpResult.ok []
  | p :: rest, n =>
    if isContentJson p.contentType then
      match readJson p.body with
      | Except.ok j => consMp ⟨"", "", some j⟩ (readPartsAux base rest n)
      | Except.error _ => MpResult.err
    else
      let recName :=
        if p.fileName ≠ "" then base ++ "-" ++ p.fileName
        else base ++ "-multipart_" ++ toString n ++ ".dat"
      let n2 := if p.fileName ≠ "" then n else n + 1
      match saveBody p.body p.contentType recName with
      | SaveOutcome.ok c cf => consMp ⟨c, cf, none⟩ (readPartsAux base rest n2)
      | SaveOutcome.crashed => MpResult.crashed

/-- readMultiPart over an already-framed part sequence (framing errors are
handled at the call site, see handleRequest). -/
def readMultiPart (parts : List PartIn) (jsonFilename : String) : MpResult :=
  readPartsAux (trimSuffixStr jsonFilename ".json") parts 0

/-! ## Capture handler dispatch (server.go: httpHandler body handling)

Each error branch of the handler calls log.Fatalf, which terminates the
whole process with exit status 1 before the following WriteHeader and Write
calls can run; the model records that as the fatalExit outcome.  A Go
runtime panic from saveBody surfaces as crashed.  On success the record is
written and the response strategy runs. -/

/-- The inbound request as the body-handling code sees it: declared content
type, whether a body stream is present, whether multipart framing parses
(MultipartReader and NextPart succeed), the framed parts, and the raw body
stream for the non-multipart paths. -/
structure ReqIn where
  contentType : String
  hasBody : Bool
  mpFramingOk : Bool
  mpParts : List PartIn
  body : List Char
deriving DecidableEq

/-- Handler outcome: process terminated by log.Fatalf, a normal completion
(record file written, then the response strategy runs), or a runtime
panic. -/
inductive HandlerOutcome
  | fatalExit (msg : String)
  | wrote
  | crashed
deriving DecidableEq

/-- The body-classification dispatch of the capture handler. -/
def handleRequest (r : ReqIn) (filename : String) : HandlerOutcome :=
  if r.hasBody then
    if isContentMultiPart r.contentType then
      if r.mpFramingOk = false then HandlerOutcome.fatalExit "failed to parse multipart"
      else
        match readMultiPart r.mpParts filename with
        | MpResult.ok _ => HandlerOutcome.wrote
        | MpResult.err => HandlerOutcome.fatalExit "failed to parse multipart"
        | MpResult.crashed => HandlerOutcome.crashed
    else if isContentJson r.contentType then
      match readJson r.body with
      | Except.ok _ => HandlerOutcome.wrote
      | Except.error _ => HandlerOutcome.fatalExit "failed to parse json"
    else
      match saveBody r.body r.contentType
          (trimSuffixStr filename ".json" ++ "-body.dat") with
      | SaveOutcome.ok _ _ => HandlerOutcome.wrote
      | SaveOutcome.crashed => HandlerOutcome.crashed
  else HandlerOutcome.wrote

/-! ## SequenceAllocator seeding (server.go: maxFileNum) and counter -/

/-- One directory entry: its name and whether it is a directory. -/
structure DirEntry where
  name : String
  isDir : Bool
deriving DecidableEq

/-- Value of a nonempty decimal-digit string. -/
def digitsToNat (l : List Char) : Nat :=
  l.foldl (fun a c => a * 10 + (c.toNat - 48)) 0

/-- Model of strconv.Atoi restricted to digit-only inputs as produced by
maxFileNum: the empty string and values beyond the int64 range are
errors. -/
def atoiDigits (l : List Char) : Option Nat :=
  if l = [] then none
  else if digitsToNat l ≤ 9223372036854775807 then some (digitsToNat l)
  else none

/-- The value one loop iteration of maxFileNum extracts from an entry:
directories are skipped; strings.IndexFunc finds the first non-digit rune
and an all-digit name (IndexFunc returns -1) is skipped; the digit prefix
is parsed with Atoi (the empty prefix fails). -/
def codeQualVal (e : DirEntry) : Option Nat :=
  if e.isDir then none
  else
    match e.name.data.findIdx? (fun c => !(isDigit09 c)) with
    | none => none
    | some pos => atoiDigits (e.name.data.take pos)

/-- Per-entry update of the running maximum: the extracted value replaces
the maximum only when strictly greater. -/
def processEntry (acc : Nat) (e : DirEntry) : Nat :=
  match codeQualVal e with
  | none => acc
  | some n => if acc < n then n else acc

/-- maxFileNum over the entry list of a directory whose reads all succeed
and end with io.EOF: the running maximum starts at 1. -/
def maxFileNum (entries : List DirEntry) : Nat :=
  entries.foldl processEntry 1

/-- Outcome kind of one f.ReadDir(16) call. -/
inductive ReadErrKind
  | noErr
  | eof
  | other
deriving DecidableEq

/-- One f.ReadDir(16) call returns a batch of entries and an error kind. -/
structure ReadBatch where
  entries : List DirEntry
  err : ReadErrKind

/-- The read loop of maxFileNum over an arbitrary sequence of directory
reads, with explicit fuel; none means the loop has not terminated within
the given fuel.  The source breaks only when the error is io.EOF; any
other error is silently ignored and the returned entries (possibly none)
are processed before reading again. -/
def runScan (reads : Nat → ReadBatch) : Nat → Nat → Nat → Option Nat
  | 0, _, _ => none
  | Nat.succ fuel, i, acc =>
    let r := reads i
    if r.err = ReadErrKind.eof then some acc
    else runScan reads fuel (i + 1) (r.entries.foldl processEntry acc)

/-- One atomic.AddInt32 step on the counter, with int32 wrap-around. -/
def addInt32Wrap (n : Int) : Int :=
  (n + 1 + 2 ^ 31) % 2 ^ 32 - 2 ^ 31

/-- The counter value after k allocations starting from the seed. -/
def allocN (seed : Int) : Nat → Int
  | 0 => seed
  | k + 1 => addInt32Wrap (allocN seed k)

/-! ## ReplayBuilder (server.go client part: clientCmd, parseRecordBody) -/

/-- The body-bearing part of a stored record (request side), with the four
mutually exclusive body fields.  bodyJson is the raw JSON bytes (nil slice
modelled as none); bodyMultiPart distinguishes an absent list from an empty
one. -/
structure RequestResponse where
  body : String
  bodyFile : String
  bodyJson : Option (List Char)
  bodyMultiPart : Option (List MultiPartRec)
deriving DecidableEq

/-- The reconstructed outbound body: a file stream opened at the given
path, compacted JSON bytes, a multipart stream regenerated from the parts,
or inline text. -/
inductive ReplayBody
  | fromFile (path : String)
  | fromJson (compacted : List Char)
  | fromParts (parts : List MultiPartRec)
  | fromText (s : String)
deriving DecidableEq

/-- Placeholder for the freshly generated multipart content type (the
random boundary is abstracted to a fixed string). -/
def freshMultipartCT : String := "multipart/form-data; boundary=generated"

/-- parseRecordBody: the four reversal paths in source order
(body_file, then body_json, then body_multipart, then inline body),
together with the resulting Content-Type header value (the empty string
models an absent header, matching Header.Get).  File opening and the
streaming of the multipart pipe are deferred effects carried by the
constructors. -/
def parseRecordBody (req : RequestResponse) (ct baseDir : String) :
    Except Unit (ReplayBody × String) :=
  if req.bodyFile ≠ "" then
    Except.ok (ReplayBody.fromFile (filepathJoin baseDir req.bodyFile),
      if ct = "" then typeByExtension (pathExtension req.bodyFile) else ct)
  else
    match req.bodyJson with
    | some j =>
      (match jsonCompact j with
       | some cj =>
         Except.ok (ReplayBody.fromJson cj,
           if ct = "" then "application/json" else ct)
       | none => Except.error ())
    | none =>
      match req.bodyMultiPart with
      | some ps =>
        Except.ok (ReplayBody.fromParts ps,
          if ct = "" then freshMultipartCT else ct)
      | none =>
        Except.ok (ReplayBody.fromText req.body,
          if ct = "" then "text/plain" else ct)

/-- The path at which the replay side opens a body file: clientCmd passes
filepath.Base of the record-file argument as the base directory, and
parseRecordBody joins the stored relative filename onto it. -/
def replayBodyFilePath (recordFile bodyFile : String) : String :=
  filepathJoin (filepathBase recordFile) bodyFile

/-! ## Spec-side definitions used for comparison with the code -/

/-- Which of the four reversal paths a reconstruction takes. -/
inductive BodyPath
  | file
  | json
  | multi
  | text
deriving DecidableEq

/-- The path of a reconstructed body. -/
def shapeOf : ReplayBody → BodyPath
  | ReplayBody.fromFile _ => BodyPath.file
  | ReplayBody.fromJson _ => BodyPath.json
  | ReplayBody.fromParts _ => BodyPath.multi
  | ReplayBody.fromText _ => BodyPath.text

/-- Modelled from the spec: the fixed reversal priority body_file, then
body_json, then body_multipart, then inline body. -/
def specPriorityPath (req : RequestResponse) : BodyPath :=
  if req.bodyFile ≠ "" then BodyPath.file
  else if req.bodyJson.isSome then BodyPath.json
  else if req.bodyMultiPart.isSome then BodyPath.multi
  else BodyPath.text

/-- Modelled from the spec: seed(directory) scans existing filenames,
extracts the leading decimal-digit prefix of each (of the non-directory
entries), and returns the maximum found, or 1 if none has such a prefix. -/
def specSeed (entries : List DirEntry) : Nat :=
  let vals := entries.filterMap fun e =>
    if e.isDir then none
    else
      let lead := e.name.data.takeWhile isDigit09
      if lead = [] then none else some (digitsToNat lead)
  match vals with
  | [] => 1
  | v :: rest => rest.foldl Nat.max v

/-! ## Supporting lemmas -/

@[simp] theorem utf8Len_nil : utf8Len [] = 0 := rfl

@[simp] theorem utf8Len_cons (c : Char) (l : List Char) :
    utf8Len (c :: l) = c.utf8Size + utf8Len l := by
  simp [utf8Len]

theorem utf8Len_append (l1 l2 : List Char) :
    utf8Len (l1 ++ l2) = utf8Len l1 + utf8Len l2 := by
  simp [utf8Len]

theorem utf8Len_replicate (n : Nat) (c : Char) :
    utf8Len (List.replicate n c) = n * c.utf8Size := by
  induction n with
  | zero => simp
  | succ k ih => simp [List.replicate_succ, ih]; ring

theorem eq_nil_of_utf8Len_eq_zero {l : List Char} (h : utf8Len l = 0) :
    l = [] := by
  cases l with
  | nil => rfl
  | cons c t =>
    exfalso
    have hp := Char.utf8Size_pos c
    simp [utf8Len_cons] at h
    omega

theorem takeUtf8Bytes_zero (l : List Char) : takeUtf8Bytes 0 l = [] := by
  cases l with
  | nil => rfl
  | cons c t =>
    have hp := Char.utf8Size_pos c
    simp [takeUtf8Bytes]
    omega

theorem takeUtf8Bytes_of_le {l : List Char} {n : Nat}
    (h : utf8Len l ≤ n) : takeUtf8Bytes n l = l := by
  induction l generalizing n with
  | nil => cases n <;> rfl
  | cons c t ih =>
    simp [utf8Len_cons] at h
    have h1 : c.utf8Size ≤ n := by omega
    simp [takeUtf8Bytes, h1]
    exact ih (by omega)

theorem takeUtf8Bytes_append_exact (l r : List Char) :
    takeUtf8Bytes (utf8Len l) (l ++ r) = l := by
  induction l with
  | nil => simpa using takeUtf8Bytes_zero r
  | cons c t ih =>
    have h1 : c.utf8Size ≤ utf8Len (c :: t) := by
      simp [utf8Len_cons]
    simp [takeUtf8Bytes, h1]
    exact ih

theorem all_goPrintable_replicate (n : Nat) {c : Char}
    (h : goPrintable c = true) : (List.replicate n c).all goPrintable = true := by
  induction n with
  | zero => rfl
  | succ k ih => simp [List.replicate_succ, h, ih]

/-- The inline branch of saveBody: a stream that ends strictly inside the
64 KiB window with only printable runes is captured inline. -/
theorem saveBody_inline {body : List Char} (ct hint : String)
    (h1 : utf8Len body < 65536) (h2 : body.all goPrintable = true) :
    saveBody body ct hint = SaveOutcome.ok (String.mk body) "" := by
  unfold saveBody
  by_cases h0 : utf8Len body = 0
  · have hb : body = [] := eq_nil_of_utf8Len_eq_zero h0
    subst hb
    simp
  · simp [h0, h1, h2]

/-- The spool branch of saveBody: a stream that fills the 64 KiB window is
handed to the spool path regardless of printability. -/
theorem saveBody_spool {body : List Char} (ct hint : String)
    (h : 65536 ≤ utf8Len body) :
    saveBody body ct hint = spoolTo ct hint := by
  unfold saveBody
  have h0 : ¬ utf8Len body = 0 := by omega
  have h1 : ¬ utf8Len body < 65536 := by omega
  simp [h0, h1]

theorem scanStringBody_repl (k : Nat) :
    scanStringBody (List.replicate k 'a' ++ ['"']) = some [] := by
  induction k with
  | zero => rfl
  | succ m ih =>
    rw [List.replicate_succ, List.cons_append, scanStringBody.eq_def]
    simp [ih]

theorem scanValue_quote (fuel : Nat) (l : List Char) :
    scanValue (fuel + 1) ('"' :: l) = scanStringBody l := by
  have hws : dropWs ('"' :: l) = '"' :: l := by
    simp [dropWs, List.dropWhile, isJsonWs]
  rw [scanValue, hws]
  simp

theorem jsonValid_quote (k : Nat) :
    jsonValid ('"' :: (List.replicate k 'a' ++ ['"'])) = true := by
  unfold jsonValid
  have hlen : ('"' :: (List.replicate k 'a' ++ ['"'])).length = k + 2 := by
    simp
  rw [hlen]
  have hfuel : 2 * (k + 2) + 2 = (2 * k + 5) + 1 := by ring
  rw [hfuel, scanValue_quote, scanStringBody_repl]
  rfl

/-! ## Claim C1 -/

/-- C1 counterexample: a body of exactly 64 KiB of printable characters
followed by end-of-stream is NOT captured inline — io.ReadFull returns a
nil error when it fills the whole window, so hasMore stays true and the
body is spooled.  The claim demands inline capture for this input. -/
theorem saveBody_exact64k_spools :
    (List.replicate 65536 'a').all goPrintable = true ∧
    utf8Len (List.replicate 65536 'a') = 65536 ∧
    saveBody (List.replicate 65536 'a') "application/pdf" "0001_x-body.dat"
      = SaveOutcome.ok "" "0001_x-body.pdf" ∧
    SaveOutcome.ok "" "0001_x-body.pdf"
      ≠ SaveOutcome.ok (String.mk (List.replicate 65536 'a')) "" := by
  have hall : (List.replicate 65536 'a').all goPrintable = true :=
    all_goPrintable_replicate 65536 (by decide)
  have hlen : utf8Len (List.replicate 65536 'a') = 65536 := by
    rw [utf8Len_replicate, show 'a'.utf8Size = 1 from by decide]
  refine ⟨hall, hlen, ?_, ?_⟩
  · rw [saveBody_spool _ _ (by rw [hlen])]
    decide
  · intro h
    have := congrArg (fun o => match o with
      | SaveOutcome.ok _ f => f
      | SaveOutcome.crashed => "x") h
    simp at this

/-- C1 (amended): for a non-multipart, non-JSON body stream, the body is
captured inline exactly when the stream ends strictly before the 64 KiB
window is filled and every rune read is a letter, digit, or whitespace;
a stream of 64 KiB or more is handed to the spool path regardless of
printability (the window being exactly filled counts as spool, not
inline). -/
theorem saveBody_peek_window (body : List Char) (ct hint : String) :
    (utf8Len body < 65536 → body.all goPrintable = true →
      saveBody body ct hint = SaveOutcome.ok (String.mk body) "") ∧
    (65536 ≤ utf8Len body → saveBody body ct hint = spoolTo ct hint) :=
  ⟨fun h1 h2 => saveBody_inline ct hint h1 h2,
   fun h => saveBody_spool ct hint h⟩

/-- C1 witness: a short printable body is stored inline; a window-filling
body goes to the spool path. -/
theorem saveBody_peek_window_w :
    saveBody "hi".data "text/plain" "x-body.dat" = SaveOutcome.ok "hi" "" ∧
    saveBody (List.replicate 65536 'a') "application/pdf" "0001_x-body.dat"
      = spoolTo "application/pdf" "0001_x-body.dat" := by
  constructor
  · exact (saveBody_peek_window "hi".data "text/plain" "x-body.dat").1
      (by decide) (by decide)
  · exact (saveBody_peek_window (List.replicate 65536 'a') "application/pdf"
      "0001_x-body.dat").2
      (by rw [utf8Len_replicate, show 'a'.utf8Size = 1 from by decide])

/-! ## Claim C2 -/

/-- C2 counterexample: a short printable non-JSON part IS stored as inline
text in the content field — readMultiPart assigns both return values of
saveBody, so the inline branch of saveBody applies to parts exactly as to
top-level bodies.  The claim says no part is ever stored as inline text. -/
theorem readMultiPart_inline_cex :
    readMultiPart [⟨"", "", "hello".data⟩] "0001_x.json"
      = MpResult.ok [⟨"hello", "", none⟩] ∧ ("hello" : String) ≠ "" := by
  exact ⟨by decide, by decide⟩

/-- C2 (amended): a non-JSON part is classified by the same saveBody rules
as a top-level body: when its stream ends strictly before the 64 KiB window
with only printable runes it is stored as inline content text (content_file
empty, content_json absent); otherwise it goes to the spool path. -/
theorem readMultiPart_part_inline (p : PartIn) (fname : String)
    (hj : isContentJson p.contentType = false)
    (h1 : utf8Len p.body < 65536)
    (h2 : p.body.all goPrintable = true) :
    readMultiPart [p] fname = MpResult.ok [⟨String.mk p.body, "", none⟩] := by
  unfold readMultiPart readPartsAux
  rw [hj]
  simp only [Bool.false_eq_true, if_false]
  rw [saveBody_inline _ _ h1 h2]
  rfl

/-- C2 witness: a concrete printable part is stored inline. -/
theorem readMultiPart_part_inline_w :
    readMultiPart [⟨"text/plain", "a.txt", "abc 123".data⟩] "0001_y.json"
      = MpResult.ok [⟨"abc 123", "", none⟩] :=
  readMultiPart_part_inline ⟨"text/plain", "a.txt", "abc 123".data⟩
    "0001_y.json" (by decide) (by decide) (by decide)

/-! ## Claim C3 -/

/-- A JSON string literal of exactly 1 MiB (2^20 bytes). -/
def c3json : List Char := '"' :: (List.replicate 1048574 'a' ++ ['"'])

theorem c3json_utf8Len : utf8Len c3json = 1 <<< 20 := by
  unfold c3json
  have h1 : '"'.utf8Size = 1 := by decide
  have h2 : 'a'.utf8Size = 1 := by decide
  rw [utf8Len_cons, utf8Len_append, utf8Len_replicate, h1, h2]
  norm_num [h1, Nat.shiftLeft_eq]

/-- C3 counterexample: a stream strictly longer than the 1 MiB cap whose
first 1 MiB happens to be a complete JSON value is NOT rejected —
io.ReadAll of the io.LimitReader stops silently at the cap, the trailing
byte is never seen, and the truncated prefix is stored as success.  The
claim demands an error whenever data remains beyond the cap. -/
theorem readJson_truncation_cex :
    1 <<< 20 < utf8Len (c3json ++ ['X']) ∧
    readJson (c3json ++ ['X']) = Except.ok c3json := by
  constructor
  · rw [utf8Len_append, c3json_utf8Len]
    simp [show 'X'.utf8Size = 1 from by decide]
  · unfold readJson
    rw [← c3json_utf8Len, takeUtf8Bytes_append_exact]
    have hv : jsonValid c3json = true := jsonValid_quote 1048574
    show (if jsonValid c3json = true then Except.ok c3json
      else Except.error ()) = Except.ok c3json
    rw [hv]
    simp

/-- C3 (amended): readJson reads at most 1 MiB and never notices data
beyond the cap: for a stream of at most 1 MiB it fails exactly when the
collected bytes are not syntactically valid JSON and otherwise returns the
exact raw bytes unchanged; a longer stream is silently truncated at 1 MiB
and is accepted whenever that prefix is valid JSON (see the
counterexample). -/
theorem readJson_cap_behavior (body : List Char)
    (h : utf8Len body ≤ 1 <<< 20) :
    readJson body = if jsonValid body then Except.ok body
      else Except.error () := by
  unfold readJson
  rw [takeUtf8Bytes_of_le h]

/-- C3 witness: a small valid JSON object is returned verbatim. -/
theorem readJson_cap_behavior_w :
    readJson [lbrace, rbrace] = Except.ok [lbrace, rbrace] := by
  have h := readJson_cap_behavior [lbrace, rbrace] (by decide)
  rw [show jsonValid [lbrace, rbrace] = true from by decide] at h
  simpa using h

/-! ## Claim C4 -/

/-- C4 (code bug): the replay side does not resolve a stored body_file
against the directory containing the record file.  clientCmd passes
filepath.Base of the record-file argument (its final filename element) as
the parameter named baseDir, so parseRecordBody joins the relative body
filename onto the record FILENAME, producing a path under a directory
named like the JSON file; resolving against the record file's directory
(filepath.Dir, which the parameter name and the spec intend) would give
the sibling file. -/
theorem replayBodyPath_base_bug :
    replayBodyFilePath "records/0001_x.json" "0001_x-body.dat"
      = "0001_x.json/0001_x-body.dat" ∧
    filepathJoin (filepathDir "records/0001_x.json") "0001_x-body.dat"
      = "records/0001_x-body.dat" ∧
    ("0001_x.json/0001_x-body.dat" : String) ≠ "records/0001_x-body.dat" := by
  refine ⟨by decide, by decide, by decide⟩

/-! ## Claim C5 -/

/-- C5 (code bug): when body classification fails, the handler does not
write a 4xx/5xx response and keep serving — every error branch calls
log.Fatalf, which terminates the whole process before the adjacent
WriteHeader/Write calls (dead code expressing the intended 400/500
response) can run.  At the concrete failing input (a request with
Content-Type application/json whose body is the single byte 0x7B, not
valid JSON) the outcome is process exit, not a response. -/
theorem handler_fatal_on_bad_json :
    handleRequest ⟨"application/json", true, true, [], [lbrace]⟩
        "0001_test.json"
      = HandlerOutcome.fatalExit "failed to parse json" := by
  decide

/-! ## Claim C6 -/

/-- C6: for every wire header multimap in which every key has a non-empty
value sequence, unfolding the folded map reproduces the original multimap
exactly: a single value collapses to a scalar and back to a one-element
sequence, a multi-value sequence passes through both directions
unchanged. -/
theorem header_roundtrip (H : List (String × List String))
    (h : ∀ kv ∈ H, kv.2 ≠ []) :
    toHttpHeader (fromHttpHeader H) = H := by
  induction H with
  | nil => rfl
  | cons kv t ih =>
    obtain ⟨k, vs⟩ := kv
    have hne : vs ≠ [] := h (k, vs) (List.mem_cons_self _ _)
    have ht : ∀ kv ∈ t, kv.2 ≠ [] := fun kv hm => h kv (List.mem_cons_of_mem _ hm)
    cases vs with
    | nil => exact absurd rfl hne
    | cons v vs2 =>
      cases vs2 with
      | nil => simp [fromHttpHeader, toHttpHeader, ih ht]
      | cons w ws => simp [fromHttpHeader, toHttpHeader, ih ht]

/-- C6 witness: round trip on a concrete multimap with one single-valued
and one multi-valued key. -/
theorem header_roundtrip_w :
    toHttpHeader (fromHttpHeader [("Accept", ["a"]), ("X", ["1", "2"])])
      = [("Accept", ["a"]), ("X", ["1", "2"])] :=
  header_roundtrip [("Accept", ["a"]), ("X", ["1", "2"])] (by decide)

/-! ## Claim C7 -/

/-- C7 counterexample: a non-directory filename consisting only of digits
is skipped entirely — strings.IndexFunc returns -1 and the loop continues —
so seeding from a directory containing only the file 9999 returns 1, while
the claim (maximum leading decimal-digit prefix over non-directory
filenames) demands 9999. -/
theorem maxFileNum_alldigits_cex :
    maxFileNum [⟨"9999", false⟩] = 1 ∧
    specSeed [⟨"9999", false⟩] = 9999 ∧
    (1 : Nat) ≠ 9999 := by
  refine ⟨by decide, by decide, by decide⟩

theorem processEntry_eq (acc : Nat) (e : DirEntry) :
    processEntry acc e = Nat.max acc ((codeQualVal e).getD acc) := by
  unfold processEntry
  cases hq : codeQualVal e with
  | none => simp
  | some n =>
    simp only [Option.getD_some]
    unfold Nat.max
    split_ifs <;> omega

theorem foldl_processEntry (l : List DirEntry) :
    ∀ acc, l.foldl processEntry acc
      = (l.filterMap codeQualVal).foldl Nat.max acc := by
  induction l with
  | nil => intro acc; rfl
  | cons e t ih =>
    intro acc
    rw [List.foldl_cons, processEntry_eq]
    cases hq : codeQualVal e with
    | none => simp [List.filterMap_cons, hq, ih]
    | some n => simp [List.filterMap_cons, hq, ih]

theorem allocN_eq (s k : Nat) (h : s + k < 2 ^ 31) :
    allocN (s : Int) k = ((s : Int) + k) := by
  induction k with
  | zero => simp [allocN]
  | succ m ih =>
    have hm : s + m < 2 ^ 31 := by omega
    rw [show allocN (s : Int) (m + 1) = addInt32Wrap (allocN (s : Int) m)
        from rfl,
      ih hm]
    unfold addInt32Wrap
    have h0 : (0 : Int) ≤ (s : Int) + m + 1 + 2 ^ 31 := by positivity
    have h1 : (s : Int) + m + 1 + 2 ^ 31 < 2 ^ 32 := by
      have hc : (s : Int) + m < 2 ^ 31 := by exact_mod_cast hm
      norm_num
      omega
    rw [Int.emod_eq_of_lt h0 h1]
    push_cast
    ring

/-- C7 (amended): maxFileNum returns the maximum, floored at 1, over the
values the scan actually extracts — the decimal prefix of a non-directory
filename that is strictly followed by a non-digit character (all-digit
names are skipped, as are prefixes Atoi rejects); seeding from a directory
holding 0007_a.json and 0003_b.json yields 7; and while the int32 counter
stays below its maximum, each allocation returns exactly the successor, so
allocations are strictly increasing. -/
theorem maxFileNum_amended :
    (∀ entries : List DirEntry,
      maxFileNum entries = (entries.filterMap codeQualVal).foldl Nat.max 1) ∧
    maxFileNum [⟨"0007_a.json", false⟩, ⟨"0003_b.json", false⟩] = 7 ∧
    (∀ s k : Nat, s + k + 1 < 2 ^ 31 →
      allocN (s : Int) (k + 1) = ((s : Int) + k + 1) ∧
      allocN (s : Int) k < allocN (s : Int) (k + 1)) := by
  refine ⟨fun entries => foldl_processEntry entries 1, by decide, ?_⟩
  intro s k h
  have h1 := allocN_eq s k (by omega)
  have h2 := allocN_eq s (k + 1) (by omega)
  constructor
  · rw [h2]; push_cast; ring
  · rw [h1, h2]; push_cast; omega

/-- C7 witness: the first allocation after seed 7 is 8 and is strictly
greater than the seed. -/
theorem maxFileNum_amended_w :
    allocN (7 : Int) 1 = 8 ∧ allocN (7 : Int) 0 < allocN (7 : Int) 1 := by
  have h := maxFileNum_amended.2.2 7 0 (by norm_num)
  constructor
  · have h1 := h.1
    norm_num at h1
    exact_mod_cast h1
  · have h2 := h.2
    exact_mod_cast h2

/-! ## Claim C8 -/

/-- C8: parseRecordBody is total and takes exactly one reversal path,
chosen by the fixed priority body_file, body_json, body_multipart, inline
body — also for records that violate mutual exclusivity by populating
several fields (the stored JSON of a loaded record is always
syntactically valid, because the record decoder already validated it) —
and the empty record yields a zero-length inline body with Content-Type
defaulted to text/plain. -/
theorem parseRecordBody_single_path :
    (∀ (req : RequestResponse) (ct baseDir : String),
        (∀ j, req.bodyJson = some j → jsonValid j = true) →
        ∃ b newCt, parseRecordBody req ct baseDir = Except.ok (b, newCt) ∧
          shapeOf b = specPriorityPath req) ∧
    parseRecordBody ⟨"", "", none, none⟩ "" "d"
      = Except.ok (ReplayBody.fromText "", "text/plain") := by
  constructor
  · rintro ⟨bd, bf, bj, bm⟩ ct baseDir hj
    by_cases hf : bf = ""
    · subst hf
      cases bj with
      | some j =>
        have hv : jsonValid j = true := hj j rfl
        refine ⟨ReplayBody.fromJson (stripWsGo WsState.out j),
          if ct = "" then "application/json" else ct, ?_, ?_⟩
        · simp [parseRecordBody, jsonCompact, hv]
        · simp [shapeOf, specPriorityPath]
      | none =>
        cases bm with
        | some ps =>
          refine ⟨ReplayBody.fromParts ps,
            if ct = "" then freshMultipartCT else ct, ?_, ?_⟩
          · simp [parseRecordBody]
          · simp [shapeOf, specPriorityPath]
        | none =>
          refine ⟨ReplayBody.fromText bd,
            if ct = "" then "text/plain" else ct, ?_, ?_⟩
          · simp [parseRecordBody]
          · simp [shapeOf, specPriorityPath]
    · refine ⟨ReplayBody.fromFile (filepathJoin baseDir bf),
        if ct = "" then typeByExtension (pathExtension bf) else ct, ?_, ?_⟩
      · simp [parseRecordBody, hf]
      · simp [shapeOf, specPriorityPath, hf]
  · rfl

/-- C8 witness: a record that populates all four body fields at once is
reconstructed along exactly the body_file path. -/
theorem parseRecordBody_single_path_w :
    ∃ b newCt,
      parseRecordBody ⟨"t", "f.bin", some [lbrace, rbrace], some []⟩ "" "d"
        = Except.ok (b, newCt) ∧
      shapeOf b
        = specPriorityPath ⟨"t", "f.bin", some [lbrace, rbrace], some []⟩ :=
  parseRecordBody_single_path.1 ⟨"t", "f.bin", some [lbrace, rbrace], some []⟩
    "" "d" (by
      intro j hj
      rw [Option.some.injEq] at hj
      subst hj
      decide)

/-! ## Claim C9 -/

/-- C9 (code bug): the spool path guards the extension rewrite with
len(ext) >= 0, which is always true, and then reads ext[0]; for a declared
content type with no registered extension (here the empty content type,
whose media-type parse fails and yields an empty extension list) this
indexes an empty slice and panics at runtime instead of keeping the hint
filename, so spooling does NOT complete without a runtime fault. -/
theorem saveBody_empty_ext_crash :
    saveBody [Char.ofNat 0] "" "0001_x-body.dat" = SaveOutcome.crashed ∧
    extensionsByType "" = [] := by
  refine ⟨by decide, by decide⟩

/-! ## Claim C10 -/

/-- C10 (code bug): the directory-scan loop of maxFileNum breaks only on
io.EOF; a read that persistently fails with any other error (for example
ENOTDIR when the opened path is a regular file) is silently ignored and
the loop re-reads forever — for every amount of fuel the loop has not
reached its exit condition, so the scan does not terminate on such
directories. -/
theorem dirScan_nonterminating :
    ∀ fuel i acc,
      runScan (fun _ => ⟨[], ReadErrKind.other⟩) fuel i acc = none := by
  intro fuel
  induction fuel with
  | zero => intro i acc; rfl
  | succ m ih =>
    intro i acc
    rw [runScan]
    simp only []
    rw [if_neg (by decide)]
    exact ih (i + 1) _

end RequestRecorder
